import Mathlib

/-!
Verification of the JSON → DTO-class generator (`src/index.ts`).

The development shallowly embeds the core of the program:

* `Json` models the parsed JSON document (`JSON.parse` output).
* `processJsonProperties` models the recursive schema walk
  (`src/index.ts:119-183`).  The source recursion terminates because JSON
  values are finite; here it is realised with an explicit fuel parameter
  bounded by the size `jsize` of the input, and `walkFuel_no_noFuel` proves
  that this bound never fires, so the fuel is an implementation device only.
  `Object.entries(null)` throws a `TypeError` in JavaScript; the embedding
  models a thrown exception as `Except.error JsErr.typeError`.
* `generateDtoClass` models the renderer (`src/index.ts:49-116`) and
  `generateDtoFiles` the emission driver (`src/index.ts:186-200`), with the
  list of written `(file name, file content)` pairs standing for the writes.
* `camelCase` / `upperFirst` model the two lodash functions the source
  imports, restricted to ASCII input (lodash's `deburr` and Unicode word
  handling are omitted; every identifier this program feeds them is built
  from JSON keys joined with `-`).  `stringify` models
  `JSON.stringify(v, null, 2)`; the source's `.replace(/\n/g, "\n")` is the
  identity and is therefore dropped.

All definitions are structurally recursive, so concrete runs reduce in the
kernel (`rfl` / `decide`).
-/

/-- A parsed JSON value, the result of `JSON.parse` (`src/index.ts:36`).
Numbers are modelled as integers; no claim depends on non-integral numbers. -/
inductive Json where
  | null : Json
  | bool (b : Bool) : Json
  | num (n : Int) : Json
  | str (s : String) : Json
  | arr (elems : List Json) : Json
  | obj (fields : List (String × Json)) : Json

mutual

/-- Size of a JSON value: strictly larger than its nesting depth and than the
size of every strict subvalue.  Used as the fuel bound of the walk. -/
def jsize : Json → Nat
  | .null => 1
  | .bool _ => 2
  | .num _ => 2
  | .str _ => 2
  | .arr xs => 2 + jsizeL xs
  | .obj fs => 2 + jsizeF fs
termination_by structural v => v

/-- Combined size of a list of JSON values. -/
def jsizeL : List Json → Nat
  | [] => 0
  | x :: xs => jsize x + jsizeL xs
termination_by structural l => l

/-- Combined size of the values of a field list. -/
def jsizeF : List (String × Json) → Nat
  | [] => 0
  | kv :: fs => jsize kv.2 + jsizeF fs
termination_by structural l => l

end

/-- `Array.isArray(value)` (`src/index.ts:130`). -/
def Json.isArr : Json → Bool
  | .arr _ => true
  | _ => false

/-- `value === null`. -/
def isNullJson : Json → Bool
  | .null => true
  | _ => false

/-- The JavaScript `typeof` operator on a JSON value.  `typeof null`,
`typeof []` and `typeof {}` are all `"object"`. -/
def typeofJson : Json → String
  | .null => "object"
  | .bool _ => "boolean"
  | .num _ => "number"
  | .str _ => "string"
  | .arr _ => "object"
  | .obj _ => "object"

/-- `prop.isArray && value.length ? value[0] : value` (`src/index.ts:135`):
the first element of a non-empty array, the value itself otherwise. -/
def actualOf : Json → Json
  | .arr (x :: _) => x
  | v => v

/-- Index-keyed entries of a JavaScript array, as produced by
`Object.entries` on an array. -/
def arrEntries : Nat → List Json → List (String × Json)
  | _, [] => []
  | i, x :: xs => (toString i, x) :: arrEntries (i + 1) xs

/-- Index-keyed entries of a JavaScript string, as produced by
`Object.entries` on a string (each entry is a one-character string). -/
def strEntries : Nat → List Char → List (String × Json)
  | _, [] => []
  | i, c :: cs => (toString i, Json.str (String.mk [c])) :: strEntries (i + 1) cs

/-- `Object.entries(data)` (`src/index.ts:126`).  On `null` JavaScript throws
`TypeError: Cannot convert undefined or null to object`, modelled as `none`;
booleans and numbers have no enumerable properties; strings and arrays are
enumerated by index; plain objects yield their fields in insertion order. -/
def jsEntries : Json → Option (List (String × Json))
  | .null => none
  | .bool _ => some []
  | .num _ => some []
  | .str s => some (strEntries 0 s.data)
  | .arr xs => some (arrEntries 0 xs)
  | .obj fs => some fs

/-- The `DtoProperty` record (`src/index.ts:39-46`).  The source field
`example` is called `exampleVal` here because `example` is a Lean keyword. -/
structure DtoProperty where
  name : String
  type : String
  isArray : Bool
  isObject : Bool
  exampleVal : Json
  nestedDtoName : Option String

/-- The shape registry: the `Map<string, DtoProperty[]>` threaded through the
walk, kept in insertion order like a JavaScript `Map`. -/
abbrev DtoMap := List (String × List DtoProperty)

/-- JavaScript `Map.prototype.set`: an existing key keeps its position and
gets the new value; a new key is appended at the end. -/
def mapSet {α : Type} : List (String × α) → String → α → List (String × α)
  | [], k, v => [(k, v)]
  | (k1, v1) :: rest, k, v =>
    if k1 = k then (k, v) :: rest else (k1, v1) :: mapSet rest k v

/-- JavaScript `Map.prototype.get` (also models dictionary lookup such as
`typeToValidator[prop.type]`, `src/index.ts:97`). -/
def mapLookup {α : Type} : List (String × α) → String → Option α
  | [], _ => none
  | (k1, v1) :: rest, k => if k1 = k then some v1 else mapLookup rest k

/-- The keys of a registry, in insertion order. -/
def mapKeys {α : Type} (m : List (String × α)) : List String :=
  m.map (·.1)

/-- JavaScript truthiness of an optional string: `undefined` and the empty
string are falsy (`prop.nestedDtoName` is tested this way at
`src/index.ts:62` and `src/index.ts:87`). -/
def jsTruthy : Option String → Bool
  | none => false
  | some s => !(s == "")

/-- Join a list of strings with a separator, as `Array.prototype.join`. -/
def joinSep (sep : String) : List String → String
  | [] => ""
  | [s] => s
  | s :: rest => s ++ sep ++ joinSep sep rest

/-- Lowercase an ASCII string, as `String.prototype.toLowerCase` on ASCII. -/
def lowerStr (s : String) : String :=
  String.mk (s.data.map Char.toLower)

/-- lodash `upperFirst`: the first character uppercased, the rest unchanged. -/
def upperFirst (s : String) : String :=
  match s.data with
  | [] => ""
  | c :: cs => String.mk (Char.toUpper c :: cs)

/-- Close the word under construction (stored reversed) and append it. -/
def flushWord (acc : List (List Char)) (cur : List Char) : List (List Char) :=
  if cur.isEmpty then acc else acc ++ [cur.reverse]

/-- One step of the lodash word splitter on ASCII text: words are maximal
alphanumeric runs, additionally split at lower→upper, at an upper run
followed by a lowercase letter (the last upper starts the new word), and at
letter/digit boundaries. -/
def wordStep (st : List (List Char) × List Char) (c : Char) :
    List (List Char) × List Char :=
  let (acc, cur) := st
  if !c.isAlphanum then (flushWord acc cur, [])
  else
    match cur with
    | [] => (acc, [c])
    | p :: pre2 =>
      if p.isDigit != c.isDigit then (flushWord acc cur, [c])
      else if p.isDigit && c.isDigit then (acc, c :: cur)
      else if p.isLower && c.isUpper then (flushWord acc cur, [c])
      else if p.isUpper && c.isLower then
        match pre2 with
        | [] => (acc, c :: cur)
        | _ :: _ => (flushWord acc pre2, [c, p])
      else (acc, c :: cur)

/-- lodash's word splitter, restricted to ASCII. -/
def wordsOfAscii (s : String) : List String :=
  let st := s.data.foldl wordStep ([], [])
  (flushWord st.1 st.2).map (fun w => String.mk w)

/-- lodash `camelCase` on ASCII: first word lowercased, every following word
capitalised (first character uppercase, rest lowercase), all concatenated. -/
def camelCase (s : String) : String :=
  match wordsOfAscii s with
  | [] => ""
  | w :: ws => lowerStr w ++ joinSep "" (ws.map (fun t => upperFirst (lowerStr t)))

/-- One hexadecimal digit, lowercase. -/
def hexDigit (n : Nat) : Char :=
  if n < 10 then Char.ofNat (48 + n) else Char.ofNat (87 + n % 16)

/-- Four-digit hexadecimal rendering used by JSON `\u` escapes. -/
def hex4 (n : Nat) : String :=
  String.mk [hexDigit (n / 4096 % 16), hexDigit (n / 256 % 16),
             hexDigit (n / 16 % 16), hexDigit (n % 16)]

/-- JSON string-character escaping as performed by `JSON.stringify`. -/
def escapeChar (c : Char) : String :=
  if c = '"' then "\\\""
  else if c = '\\' then "\\\\"
  else if c = '\n' then "\\n"
  else if c = '\t' then "\\t"
  else if c = '\r' then "\\r"
  else if c.toNat = 8 then "\\b"
  else if c.toNat = 12 then "\\f"
  else if c.toNat < 32 then "\\u" ++ hex4 c.toNat
  else String.mk [c]

/-- A JSON string literal with its surrounding quotes. -/
def quoteJson (s : String) : String :=
  "\"" ++ joinSep "" (s.data.map escapeChar) ++ "\""

/-- `2 * n` spaces: the indentation of `JSON.stringify(v, null, 2)` at
nesting depth `n`. -/
def pad (n : Nat) : String :=
  String.mk (List.replicate (2 * n) ' ')

/-- Fuel-indexed body of `JSON.stringify(v, null, 2)`; the fuel bounds the
nesting depth and one unit is consumed per level. -/
def stringifyFuel : Nat → Json → Nat → String
  | 0, _, _ => ""
  | _ + 1, .null, _ => "null"
  | _ + 1, .bool true, _ => "true"
  | _ + 1, .bool false, _ => "false"
  | _ + 1, .num n, _ => toString n
  | _ + 1, .str s, _ => quoteJson s
  | _ + 1, .arr [], _ => "[]"
  | f + 1, .arr (x :: xs), ind =>
    "[\n" ++
      joinSep ",\n" ((x :: xs).map (fun e => pad (ind + 1) ++ stringifyFuel f e (ind + 1))) ++
      "\n" ++ pad ind ++ "]"
  | _ + 1, .obj [], _ => "\x7b\x7d"
  | f + 1, .obj (kv :: kvs), ind =>
    "\x7b\n" ++
      joinSep ",\n" ((kv :: kvs).map (fun e =>
        pad (ind + 1) ++ quoteJson e.1 ++ ": " ++ stringifyFuel f e.2 (ind + 1))) ++
      "\n" ++ pad ind ++ "\x7d"

/-- `JSON.stringify(v, null, 2)` (`src/index.ts:79`).  `jsize v` strictly
exceeds the nesting depth of `v`, so the fuel never runs out. -/
def stringify (v : Json) : String :=
  stringifyFuel (jsize v) v 0

/-- The `typeToValidator` mapping (`src/index.ts:21-27`). -/
def typeToValidator (t : String) : Option String :=
  mapLookup [("string", "IsString"), ("number", "IsNumber"),
             ("boolean", "IsBoolean"), ("object", "IsObject"),
             ("array", "IsArray")] t

/-- The error outcome of a run: `typeError` models the JavaScript `TypeError`
thrown by `Object.entries(null)`; `noFuel` is the artificial fuel-exhaustion
outcome, proved unreachable in `walkFuel_no_noFuel`. -/
inductive JsErr where
  | typeError : JsErr
  | noFuel : JsErr
deriving DecidableEq

/-- One pass of the `for (const [key, value] of Object.entries(data))` loop
of `processJsonProperties` (`src/index.ts:126-180`), with the recursive call
abstracted as `walkF`.  `acc` is the mutable `nestedDtos` map.  In the source
the second branch's guard also tests `actualValue !== undefined`, which is
always true for values originating from `JSON.parse`. -/
def entriesStep
    (walkF : Json → String → Except JsErr (List DtoProperty × DtoMap))
    (pre : String) (acc : DtoMap) :
    List (String × Json) → Except JsErr (List DtoProperty × DtoMap)
  | [] => .ok ([], acc)
  | (key, value) :: rest =>
    let actual := actualOf value
    if !isNullJson actual && (typeofJson actual == "object") && !actual.isArr then
      -- nested plain object (src/index.ts:137-153)
      let nestedName := upperFirst (camelCase (pre ++ "-" ++ key))
      match walkF actual (pre ++ "-" ++ key) with
      | .error e => .error e
      | .ok (cprops, cmap) =>
        let acc1 := mapSet acc nestedName cprops
        let acc2 := cmap.foldl (fun m nv => mapSet m nv.1 nv.2) acc1
        match entriesStep walkF pre acc2 rest with
        | .error e => .error e
        | .ok (ps, m) =>
          .ok ({ name := key, type := nestedName, isArray := value.isArr,
                 isObject := true, exampleVal := value,
                 nestedDtoName := some nestedName } :: ps, m)
    else if value.isArr && (typeofJson actual == "object") then
      -- array whose representative element has typeof "object"
      -- (src/index.ts:155-171); note the guard does not exclude null
      -- or nested arrays, and an empty array is its own representative
      let nestedName := upperFirst (camelCase (pre ++ "-" ++ key))
      match walkF actual (pre ++ "-" ++ key) with
      | .error e => .error e
      | .ok (cprops, cmap) =>
        let acc1 := mapSet acc nestedName cprops
        let acc2 := cmap.foldl (fun m nv => mapSet m nv.1 nv.2) acc1
        match entriesStep walkF pre acc2 rest with
        | .error e => .error e
        | .ok (ps, m) =>
          .ok ({ name := key, type := nestedName, isArray := value.isArr,
                 isObject := true, exampleVal := value,
                 nestedDtoName := some nestedName } :: ps, m)
    else
      -- primitive (src/index.ts:172-176)
      let ty := if value.isArr then
          (match value with
           | .arr (x :: _) => typeofJson x
           | _ => "string")
        else typeofJson value
      match entriesStep walkF pre acc rest with
      | .error e => .error e
      | .ok (ps, m) =>
        .ok ({ name := key, type := ty, isArray := value.isArr,
               isObject := false, exampleVal := value,
               nestedDtoName := none } :: ps, m)

/-- Fuel-indexed walk: one unit of fuel is consumed per object level. -/
def walkFuel : Nat → Json → String → Except JsErr (List DtoProperty × DtoMap)
  | 0, _, _ => .error .noFuel
  | f + 1, data, pre =>
    match jsEntries data with
    | none => .error .typeError
    | some es => entriesStep (walkFuel f) pre [] es

/-- `processJsonProperties(data, prefix)` (`src/index.ts:119-183`): the field
list of this level together with the flattened registry of every nested shape
discovered below it.  The fuel `jsize data` strictly exceeds the nesting
depth of `data` (`walkFuel_no_noFuel`). -/
def processJsonProperties (data : Json) (pre : String) :
    Except JsErr (List DtoProperty × DtoMap) :=
  walkFuel (jsize data) data pre

/-- The three fixed import lines of every generated file
(`src/index.ts:53-57`). -/
def baseImports : List String :=
  ["import \x7b ApiProperty \x7d from \x27@nestjs/swagger\x27;",
   "import \x7b Expose, Type \x7d from \x27class-transformer\x27;",
   "import \x7b IsArray, IsBoolean, IsNumber, IsObject, IsString, ValidateNested \x7d from \x27class-validator\x27;"]

/-- The dependency import emitted for a referenced nested shape
(`src/index.ts:67`). -/
def importStatement (n : String) : String :=
  "import \x7b " ++ n ++ " \x7d from \x27./" ++ n ++ ".dto\x27;"

/-- The `properties.forEach` loop collecting nested DTO imports
(`src/index.ts:61-70`): one import statement per property whose
`nestedDtoName` is truthy, in property order, with no deduplication. -/
def nestedImportsOf (props : List DtoProperty) : List String :=
  props.foldl
    (fun acc p =>
      if jsTruthy p.nestedDtoName then
        acc ++ [importStatement (p.nestedDtoName.getD "")]
      else acc)
    []

/-- The configured indentation (`src/index.ts:18`). -/
def indent : String := "  "

/-- `{ each: true }` when the property is an array, the empty argument list
otherwise. -/
def eachArg (b : Bool) : String :=
  if b then "\x7b each: true \x7d" else ""

/-- The `@ApiProperty({ example: ... })` decorator (`src/index.ts:79-83`);
the source's `.replace(/\n/g, "\n")` is the identity. -/
def apiDecorator (p : DtoProperty) : String :=
  "@ApiProperty(\x7b example: " ++ stringify p.exampleVal ++ " \x7d)"

/-- The `@Expose({ name: '...' })` decorator (`src/index.ts:84`). -/
def exposeDecorator (p : DtoProperty) : String :=
  "@Expose(\x7b name: \x27" ++ p.name ++ "\x27 \x7d)"

/-- The decorator list of one property (`src/index.ts:78-101`): the two
documentation decorators, then either the nested-structure pair
(`@ValidateNested` / `@Type`) or the primitive validators. -/
def decoratorsOf (p : DtoProperty) : List String :=
  [apiDecorator p, exposeDecorator p] ++
    (if p.isObject && jsTruthy p.nestedDtoName then
      ["@ValidateNested(" ++ eachArg p.isArray ++ ")",
       "@Type(() => " ++ p.nestedDtoName.getD "" ++ ")"]
    else
      (if p.isArray && !jsTruthy p.nestedDtoName then ["@IsArray()"] else []) ++
      ["@" ++ (typeToValidator p.type).getD "IsString" ++
        "(" ++ eachArg p.isArray ++ ")"])

/-- The typed field declaration (`src/index.ts:103-105`). -/
def propertyDecl (p : DtoProperty) : String :=
  camelCase p.name ++ ": " ++ p.type ++ (if p.isArray then "[]" else "") ++ ";"

/-- One property's block: decorators followed by the declaration, each line
indented (`src/index.ts:107-109`). -/
def fieldBlock (p : DtoProperty) : String :=
  joinSep "\n" ((decoratorsOf p ++ [propertyDecl p]).map (fun e => indent ++ e))

/-- `generateDtoClass` (`src/index.ts:49-116`): the full text of one
generated file.  The source appends `nestedImports` only when non-empty,
which coincides with unconditional list concatenation. -/
def generateDtoClass (className : String) (properties : List DtoProperty) : String :=
  joinSep "\n" (baseImports ++ nestedImportsOf properties) ++
    "\n\nexport class " ++ className ++ " \x7b\n" ++
    joinSep "\n\n" (properties.map fieldBlock) ++ "\n\x7d"

/-- The final shape registry of a run: the walk's nested shapes with the
root's field list added under the externally supplied root name
(`src/index.ts:188` and `src/index.ts:193`). -/
def shapeRegistry (data : Json) (mainClassName : String) : Except JsErr DtoMap :=
  match processJsonProperties data "" with
  | .error e => .error e
  | .ok (props, nestedDtos) => .ok (mapSet nestedDtos mainClassName props)

/-- `generateDtoFiles` (`src/index.ts:186-200`): the list of
`(file name, file content)` pairs written, one per registry entry, in
registry iteration order. -/
def generateDtoFiles (data : Json) (mainClassName : String) :
    Except JsErr (List (String × String)) :=
  match processJsonProperties data "" with
  | .error e => .error e
  | .ok (props, nestedDtos) =>
    .ok ((mapSet nestedDtos mainClassName props).map
      (fun nv => (nv.1 ++ ".dto.ts", generateDtoClass nv.1 nv.2)))

/-- Does `needle` occur at the start of `hay`? -/
def isPrefixCh : List Char → List Char → Bool
  | [], _ => true
  | _ :: _, [] => false
  | a :: as, b :: bs => a == b && isPrefixCh as bs

/-- Does `needle` occur anywhere in `hay`? -/
def containsSub (hay needle : List Char) : Bool :=
  match hay with
  | [] => needle.isEmpty
  | _ :: t => isPrefixCh needle hay || containsSub t needle

/-- Substring test on strings. -/
def strContains (s sub : String) : Bool :=
  containsSub s.data sub.data

/-- Number of (possibly overlapping) occurrences of `needle` in `hay`. -/
def countSub (hay needle : List Char) : Nat :=
  match hay with
  | [] => 0
  | _ :: t => (if isPrefixCh needle hay then 1 else 0) + countSub t needle

/-- Does some generated file of the run contain `sub` as a substring?
`false` when the run throws. -/
def outputContains (data : Json) (root : String) (sub : String) : Bool :=
  match generateDtoFiles data root with
  | .ok files => files.any (fun f => strContains f.2 sub)
  | .error _ => false

/-- The field descriptor the loop body of `processJsonProperties` emits for
one `[key, value]` entry under prefix `pre`.  It depends only on the entry
itself, not on the surrounding entries — this is what makes the walk
order-preserving and permutation-equivariant. -/
def fieldDescOf (pre : String) (kv : String × Json) : DtoProperty :=
  let actual := actualOf kv.2
  if !isNullJson actual && (typeofJson actual == "object") && !actual.isArr then
    let n := upperFirst (camelCase (pre ++ "-" ++ kv.1))
    { name := kv.1, type := n, isArray := kv.2.isArr, isObject := true,
      exampleVal := kv.2, nestedDtoName := some n }
  else if kv.2.isArr && (typeofJson actual == "object") then
    let n := upperFirst (camelCase (pre ++ "-" ++ kv.1))
    { name := kv.1, type := n, isArray := kv.2.isArr, isObject := true,
      exampleVal := kv.2, nestedDtoName := some n }
  else
    { name := kv.1,
      type := if kv.2.isArr then
          (match kv.2 with
           | .arr (x :: _) => typeofJson x
           | _ => "string")
        else typeofJson kv.2,
      isArray := kv.2.isArr, isObject := false,
      exampleVal := kv.2, nestedDtoName := none }

/-- A JSON scalar: a value that is neither an array nor an object. -/
def isScalar : Json → Bool
  | .arr _ => false
  | .obj _ => false
  | _ => true

/-- The Name Allocator: the shape name the walk assigns to the nesting path
`segs` (the walk's prefix for path `[s1, …, sn]` is `-s1-…-sn`, built by
successive `prefix ++ "-" ++ key` extensions, `src/index.ts:143`). -/
def nameFromPath (segs : List String) : String :=
  upperFirst (camelCase (segs.foldl (fun a s => a ++ "-" ++ s) ""))

/-- Decidable view of a `DtoProperty`: its name, emitted type, array flag,
object flag and referenced shape name (everything except the retained
example value, which is the corresponding input value). -/
structure PropView where
  name : String
  type : String
  isArray : Bool
  isObject : Bool
  nestedDtoName : Option String
deriving DecidableEq

/-- Project a `DtoProperty` to its decidable view. -/
def viewProp (p : DtoProperty) : PropView :=
  { name := p.name, type := p.type, isArray := p.isArray,
    isObject := p.isObject, nestedDtoName := p.nestedDtoName }

/-- The input `{"a": [{"b": 1}, {"c": 2}]}` of testable property 3. -/
def c3Input : Json :=
  Json.obj [("a", Json.arr [Json.obj [("b", Json.num 1)], Json.obj [("c", Json.num 2)]])]

/-- An input whose two nesting paths `["a", "b"]` and `["a-b"]` both
pascal-case to the shape name `AB`: a name collision. -/
def c5Input : Json :=
  Json.obj [("a", Json.obj [("b", Json.obj [("x", Json.num 1)])]),
            ("a-b", Json.obj [("y", Json.num 2)])]

/-- A reference field pointing at shape `Shared`. -/
def c8FieldA : DtoProperty :=
  { name := "q1", type := "Shared", isArray := false, isObject := true,
    exampleVal := Json.null, nestedDtoName := some "Shared" }

/-- A second, distinct reference field pointing at the same shape `Shared`. -/
def c8FieldB : DtoProperty :=
  { name := "q2", type := "Shared", isArray := false, isObject := true,
    exampleVal := Json.null, nestedDtoName := some "Shared" }

/-- A concrete array-valued reference field, used to instantiate the
decorator-selection theorem. -/
def c9RefProp : DtoProperty :=
  { name := "u", type := "Nested", isArray := true, isObject := true,
    exampleVal := Json.null, nestedDtoName := some "Nested" }

/-! ### General lemmas about the registry and the walk -/

/-- `Map.set` never removes a key. -/
theorem mapSet_keys_mono {α : Type} (m : List (String × α)) (k : String) (v : α)
    (k' : String) (h : k' ∈ mapKeys m) : k' ∈ mapKeys (mapSet m k v) := by
  induction m with
  | nil => simp [mapKeys] at h
  | cons hd tl ih =>
    obtain ⟨k1, v1⟩ := hd
    simp only [mapSet]
    split
    · rename_i heq
      simp only [mapKeys, List.map_cons, List.mem_cons] at h ⊢
      rcases h with h | h
      · exact Or.inl (heq ▸ h)
      · exact Or.inr h
    · simp only [mapKeys, List.map_cons, List.mem_cons] at h ⊢
      rcases h with h | h
      · exact Or.inl h
      · exact Or.inr (ih h)

/-- `Map.set` followed by `Map.get` of the same key yields the new value:
the later write wins. -/
theorem mapSet_lookup_self {α : Type} (m : List (String × α)) (k : String) (v : α) :
    mapLookup (mapSet m k v) k = some v := by
  induction m with
  | nil => simp [mapSet, mapLookup]
  | cons hd tl ih =>
    obtain ⟨k1, v1⟩ := hd
    simp only [mapSet]
    split
    · simp [mapLookup]
    · rename_i hne
      simp only [mapLookup]
      split
      · exact absurd (by assumption) hne
      · exact ih

/-- Replaying a map into an accumulator with `Map.set` (the
`forEach`-merge at `src/index.ts:151-153`) never removes a key of the
accumulator. -/
theorem foldl_mapSet_keys_mono {α : Type} (l : List (String × α)) :
    ∀ (acc : List (String × α)) (k' : String), k' ∈ mapKeys acc →
      k' ∈ mapKeys (l.foldl (fun m nv => mapSet m nv.1 nv.2) acc) := by
  induction l with
  | nil => intro acc k' h; simpa using h
  | cons hd tl ih =>
    intro acc k' h
    exact ih _ _ (mapSet_keys_mono _ _ _ _ h)

/-- A successful pass of the entry loop only ever adds to `nestedDtos`:
every key of the incoming accumulator is still bound in the result. -/
theorem entriesStep_keys_mono
    (walkF : Json → String → Except JsErr (List DtoProperty × DtoMap)) (pre : String) :
    ∀ (l : List (String × Json)) (acc : DtoMap) (props : List DtoProperty)
      (reg : DtoMap), entriesStep walkF pre acc l = .ok (props, reg) →
      ∀ k', k' ∈ mapKeys acc → k' ∈ mapKeys reg := by
  intro l
  induction l with
  | nil =>
    intro acc props reg h k' hk
    simp only [entriesStep, Except.ok.injEq, Prod.mk.injEq] at h
    exact h.2 ▸ hk
  | cons kv rest ih =>
    intro acc props reg h k' hk
    obtain ⟨key, value⟩ := kv
    simp only [entriesStep] at h
    split at h
    · cases hw : walkF (actualOf value) (pre ++ "-" ++ key) with
      | error e => simp [hw] at h
      | ok c =>
        obtain ⟨cprops, cmap⟩ := c
        simp only [hw] at h
        cases hr : entriesStep walkF pre
            (cmap.foldl (fun m nv => mapSet m nv.1 nv.2)
              (mapSet acc (upperFirst (camelCase (pre ++ "-" ++ key))) cprops)) rest with
        | error e => simp [hr] at h
        | ok rr =>
          obtain ⟨ps, m⟩ := rr
          simp only [hr, Except.ok.injEq, Prod.mk.injEq] at h
          have := ih _ _ _ hr k'
            (foldl_mapSet_keys_mono _ _ _ (mapSet_keys_mono _ _ _ _ hk))
          exact h.2 ▸ this
    · split at h
      · cases hw : walkF (actualOf value) (pre ++ "-" ++ key) with
        | error e => simp [hw] at h
        | ok c =>
          obtain ⟨cprops, cmap⟩ := c
          simp only [hw] at h
          cases hr : entriesStep walkF pre
              (cmap.foldl (fun m nv => mapSet m nv.1 nv.2)
                (mapSet acc (upperFirst (camelCase (pre ++ "-" ++ key))) cprops)) rest with
          | error e => simp [hr] at h
          | ok rr =>
            obtain ⟨ps, m⟩ := rr
            simp only [hr, Except.ok.injEq, Prod.mk.injEq] at h
            have := ih _ _ _ hr k'
              (foldl_mapSet_keys_mono _ _ _ (mapSet_keys_mono _ _ _ _ hk))
            exact h.2 ▸ this
      · cases hr : entriesStep walkF pre acc rest with
        | error e => simp [hr] at h
        | ok rr =>
          obtain ⟨ps, m⟩ := rr
          simp only [hr, Except.ok.injEq, Prod.mk.injEq] at h
          exact h.2 ▸ ih _ _ _ hr k' hk

/-- On success, the emitted field list is exactly the per-entry descriptor of
each entry, in entry order: field `i` of the output is a function of entry
`i` of the input alone, so any permutation of the entries permutes the
emitted fields identically. -/
theorem entriesStep_props
    (walkF : Json → String → Except JsErr (List DtoProperty × DtoMap)) (pre : String) :
    ∀ (l : List (String × Json)) (acc : DtoMap) (props : List DtoProperty)
      (reg : DtoMap), entriesStep walkF pre acc l = .ok (props, reg) →
      props = l.map (fieldDescOf pre) := by
  intro l
  induction l with
  | nil =>
    intro acc props reg h
    simp only [entriesStep, Except.ok.injEq, Prod.mk.injEq] at h
    simp [← h.1]
  | cons kv rest ih =>
    intro acc props reg h
    obtain ⟨key, value⟩ := kv
    simp only [entriesStep] at h
    split at h
    · rename_i h1
      cases hw : walkF (actualOf value) (pre ++ "-" ++ key) with
      | error e => simp [hw] at h
      | ok c =>
        obtain ⟨cprops, cmap⟩ := c
        simp only [hw] at h
        cases hr : entriesStep walkF pre
            (cmap.foldl (fun m nv => mapSet m nv.1 nv.2)
              (mapSet acc (upperFirst (camelCase (pre ++ "-" ++ key))) cprops)) rest with
        | error e => simp [hr] at h
        | ok rr =>
          obtain ⟨ps, m⟩ := rr
          simp only [hr, Except.ok.injEq, Prod.mk.injEq] at h
          rw [← h.1, List.map_cons, ih _ _ _ hr]
          simp [fieldDescOf, h1]
    · rename_i h1
      split at h
      · rename_i h2
        cases hw : walkF (actualOf value) (pre ++ "-" ++ key) with
        | error e => simp [hw] at h
        | ok c =>
          obtain ⟨cprops, cmap⟩ := c
          simp only [hw] at h
          cases hr : entriesStep walkF pre
              (cmap.foldl (fun m nv => mapSet m nv.1 nv.2)
                (mapSet acc (upperFirst (camelCase (pre ++ "-" ++ key))) cprops)) rest with
          | error e => simp [hr] at h
          | ok rr =>
            obtain ⟨ps, m⟩ := rr
            simp only [hr, Except.ok.injEq, Prod.mk.injEq] at h
            rw [← h.1, List.map_cons, ih _ _ _ hr]
            simp [fieldDescOf, h1, h2]
      · rename_i h2
        cases hr : entriesStep walkF pre acc rest with
        | error e => simp [hr] at h
        | ok rr =>
          obtain ⟨ps, m⟩ := rr
          simp only [hr, Except.ok.injEq, Prod.mk.injEq] at h
          rw [← h.1, List.map_cons, ih _ _ _ hr]
          simp [fieldDescOf, h1, h2]

/-- When every value of the entry list is a scalar, the pass succeeds, emits
one primitive descriptor per entry and leaves the registry untouched. -/
theorem entriesStep_scalar
    (walkF : Json → String → Except JsErr (List DtoProperty × DtoMap)) (pre : String) :
    ∀ (l : List (String × Json)) (acc : DtoMap),
      (∀ kv ∈ l, isScalar kv.2 = true) →
      entriesStep walkF pre acc l = .ok (l.map (fieldDescOf pre), acc) := by
  intro l
  induction l with
  | nil => intro acc _; simp [entriesStep]
  | cons kv rest ih =>
    intro acc hs
    obtain ⟨key, value⟩ := kv
    have hv : isScalar value = true := hs (key, value) (List.Mem.head _)
    have hrest : ∀ kv ∈ rest, isScalar kv.2 = true :=
      fun kv h => hs kv (List.Mem.tail _ h)
    simp only [entriesStep]
    cases value with
    | null =>
      simp [actualOf, isNullJson, typeofJson, Json.isArr, ih _ hrest, fieldDescOf]
    | bool b =>
      simp [actualOf, isNullJson, typeofJson, Json.isArr, ih _ hrest, fieldDescOf]
    | num n =>
      simp [actualOf, isNullJson, typeofJson, Json.isArr, ih _ hrest, fieldDescOf]
    | str s =>
      simp [actualOf, isNullJson, typeofJson, Json.isArr, ih _ hrest, fieldDescOf]
    | arr xs => simp [isScalar] at hv
    | obj fs => simp [isScalar] at hv

/-! ### Fuel adequacy: the fuel bound of the walk never fires -/

/-- Every JSON value has positive size. -/
theorem jsize_pos (v : Json) : 0 < jsize v := by
  cases v <;> simp [jsize]

/-- Taking the representative element does not increase the size. -/
theorem jsize_actualOf_le (v : Json) : jsize (actualOf v) ≤ jsize v := by
  cases v with
  | arr xs =>
    cases xs with
    | nil => exact Nat.le_refl _
    | cons x t => simp [actualOf, jsize, jsizeL]; omega
  | null => exact Nat.le_refl _
  | bool b => exact Nat.le_refl _
  | num n => exact Nat.le_refl _
  | str s => exact Nat.le_refl _
  | obj fs => exact Nat.le_refl _

/-- An element of a list weighs no more than the whole list. -/
theorem jsizeL_mem_le {x : Json} {xs : List Json} (h : x ∈ xs) :
    jsize x ≤ jsizeL xs := by
  induction xs with
  | nil => cases h
  | cons y t ih =>
    rcases List.mem_cons.mp h with rfl | h'
    · simp only [jsizeL]; omega
    · simp only [jsizeL]; have := ih h'; omega

/-- A field value weighs no more than the whole field list. -/
theorem jsizeF_mem_le {kv : String × Json} {fs : List (String × Json)}
    (h : kv ∈ fs) : jsize kv.2 ≤ jsizeF fs := by
  induction fs with
  | nil => cases h
  | cons y t ih =>
    rcases List.mem_cons.mp h with rfl | h'
    · simp only [jsizeF]; omega
    · simp only [jsizeF]; have := ih h'; omega

/-- The values of array entries are the array's elements. -/
theorem arrEntries_mem {kv : String × Json} :
    ∀ {i : Nat} {xs : List Json}, kv ∈ arrEntries i xs → kv.2 ∈ xs := by
  intro i xs
  induction xs generalizing i with
  | nil => intro h; cases h
  | cons x t ih =>
    intro h
    rcases List.mem_cons.mp h with rfl | h'
    · exact List.Mem.head _
    · exact List.Mem.tail _ (ih h')

/-- Every value of a string's entries is a one-character string, so its
representative has `typeof` `"string"`. -/
theorem strEntries_typeof {kv : String × Json} :
    ∀ {i : Nat} {cs : List Char}, kv ∈ strEntries i cs →
      typeofJson (actualOf kv.2) = "string" := by
  intro i cs
  induction cs generalizing i with
  | nil => intro h; cases h
  | cons c t ih =>
    intro h
    rcases List.mem_cons.mp h with rfl | h'
    · simp [actualOf, typeofJson]
    · exact ih h'

/-- A representative that the walk recurses into is strictly smaller than the
value whose entries are being enumerated. -/
theorem jsEntries_actual_lt {data : Json} {es : List (String × Json)}
    {kv : String × Json} (hje : jsEntries data = some es) (hmem : kv ∈ es)
    (htyp : typeofJson (actualOf kv.2) = "object") :
    jsize (actualOf kv.2) < jsize data := by
  cases data with
  | null => cases hje
  | bool b => simp [jsEntries] at hje; subst hje; cases hmem
  | num n => simp [jsEntries] at hje; subst hje; cases hmem
  | str s =>
    simp only [jsEntries, Option.some.injEq] at hje
    subst hje
    rw [strEntries_typeof hmem] at htyp
    exact absurd htyp (by decide)
  | arr xs =>
    simp only [jsEntries, Option.some.injEq] at hje
    subst hje
    have h1 := jsizeL_mem_le (arrEntries_mem hmem)
    have h2 := jsize_actualOf_le kv.2
    simp only [jsize]
    omega
  | obj fs =>
    simp only [jsEntries, Option.some.injEq] at hje
    subst hje
    have h1 := jsizeF_mem_le hmem
    have h2 := jsize_actualOf_le kv.2
    simp only [jsize]
    omega

/-- If no recursive call of a pass runs out of fuel, the pass itself does
not run out of fuel. -/
theorem entriesStep_ne_noFuel
    (walkF : Json → String → Except JsErr (List DtoProperty × DtoMap)) (pre : String) :
    ∀ (l : List (String × Json)) (acc : DtoMap),
      (∀ kv ∈ l, typeofJson (actualOf kv.2) = "object" →
        walkF (actualOf kv.2) (pre ++ "-" ++ kv.1) ≠ .error .noFuel) →
      entriesStep walkF pre acc l ≠ .error .noFuel := by
  intro l
  induction l with
  | nil => intro acc _; simp [entriesStep]
  | cons kv rest ih =>
    intro acc hval
    obtain ⟨key, value⟩ := kv
    have hhead := hval (key, value) (List.Mem.head _)
    have hrest : ∀ kv ∈ rest, typeofJson (actualOf kv.2) = "object" →
        walkF (actualOf kv.2) (pre ++ "-" ++ kv.1) ≠ .error .noFuel :=
      fun kv h => hval kv (List.Mem.tail _ h)
    simp only [entriesStep]
    split
    · rename_i h1
      have htyp : typeofJson (actualOf value) = "object" := by
        simp only [Bool.and_eq_true, beq_iff_eq] at h1
        exact h1.1.2
      cases hw : walkF (actualOf value) (pre ++ "-" ++ key) with
      | error e =>
        intro hc
        simp only [hw] at hc
        cases hc
        exact hhead htyp hw
      | ok c =>
        obtain ⟨cprops, cmap⟩ := c
        simp only [hw]
        cases hr : entriesStep walkF pre
            (cmap.foldl (fun m nv => mapSet m nv.1 nv.2)
              (mapSet acc (upperFirst (camelCase (pre ++ "-" ++ key))) cprops)) rest with
        | error e =>
          intro hc
          simp only [hr] at hc
          cases hc
          exact ih _ hrest hr
        | ok rr => simp [hr]
    · split
      · rename_i h1 h2
        have htyp : typeofJson (actualOf value) = "object" := by
          simp only [Bool.and_eq_true, beq_iff_eq] at h2
          exact h2.2
        cases hw : walkF (actualOf value) (pre ++ "-" ++ key) with
        | error e =>
          intro hc
          simp only [hw] at hc
          cases hc
          exact hhead htyp hw
        | ok c =>
          obtain ⟨cprops, cmap⟩ := c
          simp only [hw]
          cases hr : entriesStep walkF pre
              (cmap.foldl (fun m nv => mapSet m nv.1 nv.2)
                (mapSet acc (upperFirst (camelCase (pre ++ "-" ++ key))) cprops)) rest with
          | error e =>
            intro hc
            simp only [hr] at hc
            cases hc
            exact ih _ hrest hr
          | ok rr => simp [hr]
      · cases hr : entriesStep walkF pre acc rest with
        | error e =>
          intro hc
          simp only [hr] at hc
          cases hc
          exact ih _ hrest hr
        | ok rr => simp [hr]

/-- With fuel at least `jsize data`, the walk never reports fuel
exhaustion: the source recursion always terminates on finite JSON. -/
theorem walkFuel_no_noFuel :
    ∀ (f : Nat) (data : Json) (pre : String), jsize data ≤ f →
      walkFuel f data pre ≠ .error .noFuel := by
  intro f
  induction f with
  | zero =>
    intro data pre h
    exact absurd h (by have := jsize_pos data; omega)
  | succ f ih =>
    intro data pre h
    simp only [walkFuel]
    cases hje : jsEntries data with
    | none => simp
    | some es =>
      apply entriesStep_ne_noFuel
      intro kv hmem htyp
      apply ih
      have := jsEntries_actual_lt hje hmem htyp
      omega

/-- The walk on `null` never succeeds: with fuel it is either out of fuel or
the `TypeError` from `Object.entries(null)`. -/
theorem walkFuel_null_not_ok (f : Nat) (pre : String)
    (r : List DtoProperty × DtoMap) : walkFuel f Json.null pre ≠ .ok r := by
  cases f <;> simp [walkFuel, jsEntries]

/-- An entry list containing a non-empty array whose first element is `null`
never completes: the guard of the array branch admits `null` (its `typeof`
is `"object"`), so the walk recurses into `null` and fails. -/
theorem entriesStep_nullArr_not_ok :
    ∀ (l : List (String × Json)) (k : String) (t : List Json) (f : Nat)
      (pre : String) (acc : DtoMap) (r : List DtoProperty × DtoMap),
      (k, Json.arr (Json.null :: t)) ∈ l →
      entriesStep (walkFuel f) pre acc l ≠ .ok r := by
  intro l
  induction l with
  | nil => intro k t f pre acc r hmem; cases hmem
  | cons kv rest ih =>
    intro k t f pre acc r hmem
    rcases List.mem_cons.mp hmem with heq | hmem'
    · subst heq
      simp only [entriesStep, actualOf, isNullJson, typeofJson, Json.isArr]
      simp only [Bool.not_true, Bool.false_and, Bool.and_false, Bool.true_and,
        Bool.and_true, beq_self_eq_true, if_false, if_true]
      cases f with
      | zero => simp [walkFuel]
      | succ f => simp [walkFuel, jsEntries]
    · obtain ⟨key, value⟩ := kv
      intro h
      simp only [entriesStep] at h
      split at h
      · cases hw : walkFuel f (actualOf value) (pre ++ "-" ++ key) with
        | error e => simp [hw] at h
        | ok c =>
          obtain ⟨cprops, cmap⟩ := c
          simp only [hw] at h
          cases hr : entriesStep (walkFuel f) pre
              (cmap.foldl (fun m nv => mapSet m nv.1 nv.2)
                (mapSet acc (upperFirst (camelCase (pre ++ "-" ++ key))) cprops)) rest with
          | error e => simp [hr] at h
          | ok rr => exact ih k t f pre _ rr hmem' hr
      · split at h
        · cases hw : walkFuel f (actualOf value) (pre ++ "-" ++ key) with
          | error e => simp [hw] at h
          | ok c =>
            obtain ⟨cprops, cmap⟩ := c
            simp only [hw] at h
            cases hr : entriesStep (walkFuel f) pre
                (cmap.foldl (fun m nv => mapSet m nv.1 nv.2)
                  (mapSet acc (upperFirst (camelCase (pre ++ "-" ++ key))) cprops)) rest with
            | error e => simp [hr] at h
            | ok rr => exact ih k t f pre _ rr hmem' hr
        · cases hr : entriesStep (walkFuel f) pre acc rest with
          | error e => simp [hr] at h
          | ok rr => exact ih k t f pre _ rr hmem' hr

/-- Pushing conditionally onto an accumulator with `forEach` is filtering
followed by mapping. -/
theorem foldl_if_append {β : Type} (c : DtoProperty → Bool) (g : DtoProperty → β) :
    ∀ (l : List DtoProperty) (init : List β),
      l.foldl (fun acc p => if c p then acc ++ [g p] else acc) init =
        init ++ (l.filter c).map g := by
  intro l
  induction l with
  | nil => intro init; simp
  | cons p rest ih =>
    intro init
    simp only [List.foldl, List.filter]
    cases hc : c p <;> simp [hc, ih, List.append_assoc]

/-! ### The claims -/

/-- C1.  What the code actually does on `{"a": []}`: the empty array is its
own representative (`value.length` is falsy), `typeof [] === "object"` sends
it into the array-of-object branch, so field `a` becomes a Reference of type
`A` with `isArray = true` and `isObject = true`, and an empty shape `A` is
added to the registry.  This contradicts the claimed primitive `string`
array field with no nested shape; the `"string"` default for empty arrays
at `src/index.ts:174` is unreachable. -/
theorem c1_empty_array_code_behavior :
    (processJsonProperties (Json.obj [("a", Json.arr [])]) "").toOption.map
        (fun r => (r.1.map viewProp, r.2.map (fun nv => (nv.1, nv.2.length)))) =
      some ([⟨"a", "A", true, true, some "A"⟩], [("A", 0)]) := by
  decide

/-- C2.  For `{"a": null}` the walk emits exactly one field `a`: a primitive
of type `object` (`typeof null`), not an array, not a Reference (its
`nestedDtoName` is absent), and no nested shape is registered. -/
theorem c2_null_value_object_primitive :
    (processJsonProperties (Json.obj [("a", Json.null)]) "").toOption.map
        (fun r => (r.1.map viewProp, mapKeys r.2)) =
      some ([⟨"a", "object", false, false, none⟩], []) := by
  decide

/-- C3, counterexample.  The claim says key `c` of the second array element
appears nowhere in any rendered output; but the root field `a` retains the
whole original array as its example value, and the renderer prints it
verbatim inside the `@ApiProperty` annotation, so the quoted key `"c"` does
occur in the generated text of the root class. -/
theorem c3_key_c_appears_in_output :
    outputContains c3Input "R" "\"c\"" = true := by
  set_option maxRecDepth 100000 in decide

/-- C3, amended.  Only the first array element is used for type inference:
the derived nested shape `A` has exactly the field `b : number`, and key `c`
occurs in no field list of the registry; however the raw example value kept
on the root field `a` reproduces the original array, including `"c"`, inside
its documentation annotation in the rendered output. -/
theorem c3_first_element_only_amended :
    (shapeRegistry c3Input "R").toOption.map
        (fun m => m.map (fun nv => (nv.1, nv.2.map viewProp))) =
      some [("A", [⟨"b", "number", false, false, none⟩]),
            ("R", [⟨"a", "A", true, true, some "A"⟩])] ∧
    outputContains c3Input "R" "\"c\"" = true := by
  constructor
  · decide
  · set_option maxRecDepth 100000 in decide

/-- C4.  For `{"a": {"b": 1}}` with root name `R` the final registry has
exactly the two shapes `A` (one primitive field `b : number`) and `R` (one
Reference field `a → A` with `isArray = false`), and `A` is precisely the
name the Name Allocator derives from the path `["a"]`. -/
theorem c4_nested_object_registry :
    (shapeRegistry (Json.obj [("a", Json.obj [("b", Json.num 1)])]) "R").toOption.map
        (fun m => m.map (fun nv => (nv.1, nv.2.map viewProp))) =
      some [("A", [⟨"b", "number", false, false, none⟩]),
            ("R", [⟨"a", "A", false, true, some "A"⟩])] ∧
    nameFromPath ["a"] = "A" := by
  constructor
  · decide
  · decide

/-- C5.  The registry only grows: `Map.set` never removes a key, replaying a
nested registry into the accumulator never removes a key, and a successful
pass of the walk keeps every key the accumulator already had; a repeated
`Map.set` of the same key replaces the value (last write wins).  On the
collision input (`["a","b"]` and `["a-b"]` both pascal-case to `AB`) the
walk succeeds with no error, `AB` stays bound, and its field list is the
later-discovered shape `{y: number}`. -/
theorem c5_registry_monotone_last_write_wins :
    (∀ (m : DtoMap) (k : String) (v : List DtoProperty) (k' : String),
       k' ∈ mapKeys m → k' ∈ mapKeys (mapSet m k v)) ∧
    (∀ (m : DtoMap) (k : String) (v : List DtoProperty),
       mapLookup (mapSet m k v) k = some v) ∧
    (∀ (walkF : Json → String → Except JsErr (List DtoProperty × DtoMap))
       (pre : String) (acc : DtoMap) (l : List (String × Json))
       (props : List DtoProperty) (reg : DtoMap),
       entriesStep walkF pre acc l = .ok (props, reg) →
       ∀ k', k' ∈ mapKeys acc → k' ∈ mapKeys reg) ∧
    (processJsonProperties c5Input "").toOption.map
        (fun r => (mapKeys r.2, (mapLookup r.2 "AB").map (List.map viewProp))) =
      some (["A", "AB"], some [⟨"y", "number", false, false, none⟩]) := by
  refine ⟨mapSet_keys_mono, mapSet_lookup_self, ?_, by decide⟩
  intro walkF pre acc l props reg h k' hk
  exact entriesStep_keys_mono walkF pre l acc props reg h k' hk

/-- C5, witness: the monotonicity part applied at a concrete registry. -/
theorem c5_registry_monotone_witness :
    "A" ∈ mapKeys (mapSet ([("A", [])] : DtoMap) "B" []) :=
  c5_registry_monotone_last_write_wins.1 [("A", [])] "B" [] "A" (by decide)

/-- C6.  Field order is input key order: on success the emitted field list is
the entrywise image of the input entries (field `i` depends on entry `i`
alone, so permuting the entries permutes the fields identically); the
descriptor keeps the source key as its name; and for an object all of whose
values are scalars the registry holds exactly one shape — the root — whose
field list has one field per input key, in input order. -/
theorem c6_field_order_preservation :
    (∀ (walkF : Json → String → Except JsErr (List DtoProperty × DtoMap))
       (pre : String) (acc : DtoMap) (l : List (String × Json))
       (props : List DtoProperty) (reg : DtoMap),
       entriesStep walkF pre acc l = .ok (props, reg) →
       props = l.map (fieldDescOf pre)) ∧
    (∀ (pre : String) (kv : String × Json), (fieldDescOf pre kv).name = kv.1) ∧
    (∀ (l : List (String × Json)) (root : String),
       (∀ kv ∈ l, isScalar kv.2 = true) →
       shapeRegistry (Json.obj l) root = .ok [(root, l.map (fieldDescOf ""))] ∧
       (l.map (fieldDescOf "")).length = l.length) := by
  refine ⟨?_, ?_, ?_⟩
  · intro walkF pre acc l props reg h
    exact entriesStep_props walkF pre l acc props reg h
  · intro pre kv
    simp only [fieldDescOf]
    split
    · rfl
    · split
      · rfl
      · rfl
  · intro l root hsc
    have hpos := jsize_pos (Json.obj l)
    obtain ⟨f, hf⟩ : ∃ f, jsize (Json.obj l) = f + 1 :=
      ⟨jsize (Json.obj l) - 1, by omega⟩
    have hrun : processJsonProperties (Json.obj l) "" =
        .ok (l.map (fieldDescOf ""), []) := by
      unfold processJsonProperties
      rw [hf]
      simp only [walkFuel, jsEntries]
      exact entriesStep_scalar _ _ l [] hsc
    constructor
    · simp only [shapeRegistry, hrun]
      simp [mapSet]
    · simp

/-- C6, witness: the scalar-object part applied at a two-key object. -/
theorem c6_field_order_witness :
    shapeRegistry (Json.obj [("a", Json.num 1), ("b", Json.str "s")]) "R" =
      .ok [("R", [("a", Json.num 1), ("b", Json.str "s")].map (fieldDescOf ""))] :=
  (c6_field_order_preservation.2.2 [("a", Json.num 1), ("b", Json.str "s")] "R"
    (by decide)).1

/-- C7.  The pipeline is a pure function of the parsed document and the root
name: byte-identical input and configuration give byte-identical generated
text for every shape, and identical path segments always give the identical
allocated shape name.  The embedding is deterministic because the source
computes from its arguments alone — there is no other input to the core. -/
theorem c7_pipeline_determinism :
    (∀ (d1 d2 : Json) (r1 r2 : String), d1 = d2 → r1 = r2 →
       generateDtoFiles d1 r1 = generateDtoFiles d2 r2) ∧
    (∀ (p1 p2 : List String), p1 = p2 → nameFromPath p1 = nameFromPath p2) :=
  ⟨fun _ _ _ _ hd hr => by rw [hd, hr], fun _ _ hp => by rw [hp]⟩

/-- C7, witness: determinism applied at a concrete run and path. -/
theorem c7_pipeline_determinism_witness :
    generateDtoFiles (Json.obj [("a", Json.num 1)]) "R" =
      generateDtoFiles (Json.obj [("a", Json.num 1)]) "R" ∧
    nameFromPath ["a", "b"] = nameFromPath ["a", "b"] :=
  ⟨c7_pipeline_determinism.1 _ _ _ _ rfl rfl, c7_pipeline_determinism.2 _ _ rfl⟩

/-- C8.  The renderer emits exactly one dependency import per field whose
referenced-shape name is set (JavaScript-truthy), in field order, naming
that field's shape, with no deduplication: two distinct fields referencing
the same shape yield two identical import statements, which both occur in
the generated class text. -/
theorem c8_imports_per_reference :
    (∀ props : List DtoProperty,
       nestedImportsOf props =
         (props.filter (fun p => jsTruthy p.nestedDtoName)).map
           (fun p => importStatement (p.nestedDtoName.getD ""))) ∧
    nestedImportsOf [c8FieldA, c8FieldB] =
      [importStatement "Shared", importStatement "Shared"] ∧
    countSub (generateDtoClass "R" [c8FieldA, c8FieldB]).data
      (importStatement "Shared").data = 2 := by
  refine ⟨fun props => ?_, by decide, ?_⟩
  · simpa [nestedImportsOf] using
      foldl_if_append (fun p => jsTruthy p.nestedDtoName)
        (fun p => importStatement (p.nestedDtoName.getD "")) props []
  · set_option maxRecDepth 100000 in decide

/-- C9.  Decorator selection: a Reference field (`isObject` with a truthy
`nestedDtoName`) gets the structural-validation decorator — with the
each-element variant exactly when `isArray` — plus the transformation
decorator naming its shape, and never the array-presence decorator; any
other field gets the array-presence decorator exactly when it is an array
with no referenced shape, followed by the validator selected by its
primitive kind, falling back to the string validator for unrecognised
kinds. -/
theorem c9_decorator_selection (p : DtoProperty) :
    ((p.isObject && jsTruthy p.nestedDtoName) = true →
      decoratorsOf p =
        [apiDecorator p, exposeDecorator p,
         "@ValidateNested(" ++ eachArg p.isArray ++ ")",
         "@Type(() => " ++ p.nestedDtoName.getD "" ++ ")"] ∧
      "@IsArray()" ∉ decoratorsOf p) ∧
    ((p.isObject && jsTruthy p.nestedDtoName) = false →
      decoratorsOf p =
        [apiDecorator p, exposeDecorator p] ++
          (if p.isArray && !jsTruthy p.nestedDtoName then ["@IsArray()"] else []) ++
          ["@" ++ (typeToValidator p.type).getD "IsString" ++
            "(" ++ eachArg p.isArray ++ ")"]) ∧
    (eachArg true = "\x7b each: true \x7d" ∧ eachArg false = "") ∧
    (p.type ∉ ["string", "number", "boolean", "object", "array"] →
      (typeToValidator p.type).getD "IsString" = "IsString") := by
  refine ⟨?_, ?_, ⟨rfl, rfl⟩, ?_⟩
  · intro h
    have heq : decoratorsOf p =
        [apiDecorator p, exposeDecorator p,
         "@ValidateNested(" ++ eachArg p.isArray ++ ")",
         "@Type(() => " ++ p.nestedDtoName.getD "" ++ ")"] := by
      simp [decoratorsOf, h]
    refine ⟨heq, ?_⟩
    rw [heq]
    intro hmem
    have e0 : ("@IsArray()" : String).length = 10 := by decide
    simp only [List.mem_cons, List.not_mem_nil, or_false] at hmem
    rcases hmem with hc | hc | hc | hc
    · have hl := congrArg String.length hc
      simp only [apiDecorator, String.length_append] at hl
      have e1 : ("@ApiProperty(\x7b example: " : String).length = 24 := by decide
      have e2 : (" \x7d)" : String).length = 3 := by decide
      rw [e0, e1, e2] at hl
      omega
    · have hl := congrArg String.length hc
      simp only [exposeDecorator, String.length_append] at hl
      have e1 : ("@Expose(\x7b name: \x27" : String).length = 17 := by decide
      have e2 : ("\x27 \x7d)" : String).length = 4 := by decide
      rw [e0, e1, e2] at hl
      omega
    · have hl := congrArg String.length hc
      simp only [String.length_append] at hl
      have e1 : ("@ValidateNested(" : String).length = 16 := by decide
      have e2 : (")" : String).length = 1 := by decide
      rw [e0, e1, e2] at hl
      omega
    · have hl := congrArg String.length hc
      simp only [String.length_append] at hl
      have e1 : ("@Type(() => " : String).length = 12 := by decide
      have e2 : (")" : String).length = 1 := by decide
      rw [e0, e1, e2] at hl
      omega
  · intro h
    simp [decoratorsOf, h, List.append_assoc]
  · intro hnot
    simp only [typeToValidator, mapLookup]
    split_ifs with h1 h2 h3 h4 h5
    · simp
    · exact absurd (show p.type ∈ ["string", "number", "boolean", "object", "array"]
        by rw [← h2]; decide) hnot
    · exact absurd (show p.type ∈ ["string", "number", "boolean", "object", "array"]
        by rw [← h3]; decide) hnot
    · exact absurd (show p.type ∈ ["string", "number", "boolean", "object", "array"]
        by rw [← h4]; decide) hnot
    · exact absurd (show p.type ∈ ["string", "number", "boolean", "object", "array"]
        by rw [← h5]; decide) hnot
    · simp

/-- C9, witness: the Reference case applied at a concrete array-valued
reference field. -/
theorem c9_decorator_selection_witness :
    decoratorsOf c9RefProp =
      ["@ApiProperty(\x7b example: null \x7d)", "@Expose(\x7b name: \x27u\x27 \x7d)",
       "@ValidateNested(\x7b each: true \x7d)", "@Type(() => Nested)"] ∧
    "@IsArray()" ∉ decoratorsOf c9RefProp := by
  have h := (c9_decorator_selection c9RefProp).1 (by decide)
  exact ⟨h.1.trans (by decide), h.2⟩

/-- C10.  Any top-level field holding a non-empty array whose first element
is `null` makes the walk throw: the array-branch guard
(`src/index.ts:155-159`) tests `typeof actualValue === "object"` without
excluding `null`, so the walk recurses into `null` and
`Object.entries(null)` raises a `TypeError`; the run produces no field
list, no registry and no output files. -/
theorem c10_null_first_element_throws
    (l : List (String × Json)) (k : String) (t : List Json) (pre : String)
    (hmem : (k, Json.arr (Json.null :: t)) ∈ l) :
    processJsonProperties (Json.obj l) pre = .error .typeError ∧
    ∀ root, generateDtoFiles (Json.obj l) root = .error .typeError := by
  have hmain : ∀ pre', processJsonProperties (Json.obj l) pre' = .error .typeError := by
    intro pre'
    have hpos := jsize_pos (Json.obj l)
    obtain ⟨f, hf⟩ : ∃ f, jsize (Json.obj l) = f + 1 :=
      ⟨jsize (Json.obj l) - 1, by omega⟩
    unfold processJsonProperties
    rw [hf]
    simp only [walkFuel, jsEntries]
    have hnf : entriesStep (walkFuel f) pre' [] l ≠ .error .noFuel := by
      apply entriesStep_ne_noFuel
      intro kv hm htyp
      apply walkFuel_no_noFuel
      have hlt := @jsEntries_actual_lt (Json.obj l) l kv rfl hm htyp
      omega
    cases hres : entriesStep (walkFuel f) pre' [] l with
    | ok r => exact absurd hres (entriesStep_nullArr_not_ok l k t f pre' [] r hmem)
    | error e =>
      cases e with
      | typeError => rfl
      | noFuel => exact absurd hres hnf
  refine ⟨hmain pre, fun root => ?_⟩
  simp [generateDtoFiles, hmain ""]

/-- C10, witness: the failure at the spec's example input `{"a": [null]}`. -/
theorem c10_null_first_element_witness :
    processJsonProperties (Json.obj [("a", Json.arr [Json.null])]) "" =
      .error .typeError :=
  (c10_null_first_element_throws [("a", Json.arr [Json.null])] "a" [] ""
    (List.Mem.head _)).1
